import Mathlib

/-!
Verification of the normalization + deduplication pipeline of the event
web-scraper repository.  Python strings are modelled as lists of Unicode
codepoints (`Str`), Python scalar values as `PyVal`, and dicts as
association lists (`Record`).  Each Python function from
`src/utils/date_parser.py`, `src/utils/normalizer.py`,
`src/utils/deduplicator.py` and `src/main.py` is embedded as a Lean
function of the same name (exceptions become `Except`/`Option` values).
-/

/-- A Python string, as its list of Unicode codepoints. -/
abbrev Str : Type := List Nat

/-- Codepoints of a Lean string literal, used to write `Str` constants. -/
def lit (s : String) : Str := s.data.map Char.toNat

example : lit "ab" = [97, 98] := by decide

example : lit "title" = [116, 105, 116, 108, 101] := by decide

/-- Python `str.strip()` whitespace (and regex `\s`), ASCII range:
space, tab, newline, carriage return, vertical tab, form feed. -/
def isPyWs (c : Nat) : Bool :=
  c = 32 || c = 9 || c = 10 || c = 13 || c = 11 || c = 12

/-- Python `str.lower()` on one codepoint (ASCII letters). -/
def lowerChar (c : Nat) : Nat := if 65 ≤ c ∧ c ≤ 90 then c + 32 else c

/-- Python `str.upper()` on one codepoint (ASCII letters). -/
def upperChar (c : Nat) : Nat := if 97 ≤ c ∧ c ≤ 122 then c - 32 else c

/-- Python `str.lower()`. -/
def pyLower (s : Str) : Str := s.map lowerChar

/-- Python `str.upper()`. -/
def pyUpper (s : Str) : Str := s.map upperChar

/-- Remove leading whitespace. -/
def ltrim (s : Str) : Str := s.dropWhile isPyWs

/-- Remove trailing whitespace. -/
def rtrim (s : Str) : Str := (s.reverse.dropWhile isPyWs).reverse

/-- Python `str.strip()`. -/
def pyStrip (s : Str) : Str := rtrim (ltrim s)

example : pyStrip (lit "  a b ") = lit "a b" := by decide
example : pyLower (lit "All Day") = lit "all day" := by decide

/-- A Python scalar value as it appears in scraped records. -/
inductive PyVal : Type
  | str (s : Str)
  | int (n : Int)
  | bool (b : Bool)
  | none
deriving DecidableEq

/-- A Python dict with string keys and scalar values (insertion ordered). -/
abbrev Record : Type := List (Str × PyVal)

/-- A Python object handed to `normalize_event`: a dict, or any non-dict value. -/
inductive PyObj : Type
  | dict (r : Record)
  | atom (v : PyVal)
deriving DecidableEq

/-- The single exception class our embedding needs (`AttributeError` from
calling a `str` method on a non-string value). -/
inductive PyExc : Type
  | attributeError
deriving DecidableEq

/-- Python truthiness of a scalar. -/
def pyTruthy : PyVal → Bool
  | .str s => decide (s ≠ [])
  | .int n => decide (n ≠ 0)
  | .bool b => b
  | .none => false

/-- Fuel-driven decimal rendering (the fuel keeps recursion structural). -/
def natDecAux : Nat → Nat → Str
  | 0, _ => []
  | fuel + 1, n => if n < 10 then [48 + n] else natDecAux fuel (n / 10) ++ [48 + n % 10]

/-- Decimal rendering of a natural number (Python `str(n)` for `n ≥ 0`). -/
def natDec (n : Nat) : Str := natDecAux (n + 1) n

/-- Python `str()` of a scalar value. -/
def pyStr : PyVal → Str
  | .str s => s
  | .int n => if n < 0 then 45 :: natDec n.natAbs else natDec n.natAbs
  | .bool b => if b then lit "True" else lit "False"
  | .none => lit "None"

/-- `%02d`-style zero padding to width 2. -/
def pad2 (n : Nat) : Str := if n < 10 then 48 :: natDec n else natDec n

/-- `%Y`-style zero padding to width 4. -/
def pad4 (n : Nat) : Str :=
  (if n < 10 then [48, 48, 48] else if n < 100 then [48, 48] else
    if n < 1000 then [48] else []) ++ natDec n

example : natDec 2025 = lit "2025" := by decide
example : pad2 7 = lit "07" := by decide

/-- Is the codepoint an ASCII digit? -/
def isDigit (c : Nat) : Bool := 48 ≤ c && c ≤ 57

/-- Numeric value of a digit string (Python `int()` on an all-digit string). -/
def digitsVal (s : Str) : Nat := s.foldl (fun a c => 10 * a + (c - 48)) 0

/-- `int()`-style parse: succeeds only on nonempty all-digit strings. -/
def digitsToNat (s : Str) : Option Nat :=
  if s ≠ [] ∧ s.all isDigit then some (digitsVal s) else Option.none

/-- Lookup in an insertion-ordered association list (Python `dict.get`). -/
def pyLookup {α : Type} : List (Str × α) → Str → Option α
  | [], _ => Option.none
  | (k', v) :: t, k => if k' = k then some v else pyLookup t k

/-- Python `dict.get(k, d)`. -/
def pyGetD {α : Type} (r : List (Str × α)) (k : Str) (d : α) : α :=
  (pyLookup r k).getD d

/-- Python `dict[k] = v`: replace in place if present, append otherwise. -/
def pySet {α : Type} : List (Str × α) → Str → α → List (Str × α)
  | [], k, v => [(k, v)]
  | (k', v') :: t, k, v => if k' = k then (k, v) :: t else (k', v') :: pySet t k v

/-- Keys of an association list. -/
def keysOf {α : Type} (r : List (Str × α)) : List Str := r.map Prod.fst

/-- First of two options that is `some` (regex alternative / backtracking). -/
def orE {α : Type} (a b : Option α) : Option α :=
  match a with
  | some x => some x
  | Option.none => b

/-- Token separator for the date model: whitespace or comma. -/
def isSep (c : Nat) : Bool := isPyWs c || c = 44

/-- Split on separators, dropping empty pieces. -/
def splitTokensGo : Str → Str → List Str
  | [], cur => if cur = [] then [] else [cur.reverse]
  | c :: t, cur =>
    if isSep c then (if cur = [] then splitTokensGo t [] else cur.reverse :: splitTokensGo t [])
    else splitTokensGo t (c :: cur)

/-- Tokenize a date string on whitespace and commas. -/
def splitTokens (s : Str) : List Str := splitTokensGo s []

/-- Split on a separator codepoint, keeping empty pieces (Python `str.split(sep)`). -/
def splitCharGo (sep : Nat) : Str → Str → List Str
  | [], cur => [cur.reverse]
  | c :: t, cur =>
    if c = sep then cur.reverse :: splitCharGo sep t []
    else splitCharGo sep t (c :: cur)

/-- Python `str.split(sep)` for a one-character separator. -/
def splitChar (sep : Nat) (s : Str) : List Str := splitCharGo sep s []

/-- English month names with their numbers (lowercase). -/
def monthNames : List (Str × Nat) :=
  [(lit "january", 1), (lit "february", 2), (lit "march", 3), (lit "april", 4),
   (lit "may", 5), (lit "june", 6), (lit "july", 7), (lit "august", 8),
   (lit "september", 9), (lit "october", 10), (lit "november", 11), (lit "december", 12)]

/-- Month number of a lowercase token: full name or three-letter abbreviation. -/
def monthIdx (t : Str) : Option Nat :=
  (monthNames.find? (fun p => p.1 = t || p.1.take 3 = t)).map Prod.snd

/-- A `YYYY-MM-DD` token. -/
def isoTriple (t : Str) : Option (Nat × Nat × Nat) :=
  match splitChar 45 t with
  | [y, m, d] =>
    match digitsToNat y, digitsToNat m, digitsToNat d with
    | some yv, some mv, some dv =>
      if y.length = 4 ∧ 1 ≤ mv ∧ mv ≤ 12 ∧ 1 ≤ dv ∧ dv ≤ 31 then some (yv, mv, dv)
      else Option.none
    | _, _, _ => Option.none
  | _ => Option.none

/-- `Month D Y` or `D Month Y` from three tokens (already lowercased). -/
def wordTriple (a b c : Str) : Option (Nat × Nat × Nat) :=
  match monthIdx a, digitsToNat b, digitsToNat c with
  | some m, some d, some y =>
    if c.length = 4 ∧ 1 ≤ d ∧ d ≤ 31 then some (y, m, d) else Option.none
  | _, _, _ =>
    match digitsToNat a, monthIdx b, digitsToNat c with
    | some d, some m, some y =>
      if c.length = 4 ∧ 1 ≤ d ∧ d ≤ 31 then some (y, m, d) else Option.none
    | _, _, _ => Option.none

/-- Modelled from the spec: the third-party fuzzy natural-language date
interpreter wrapped by `parse_date` (the `dateutil` parser, which is not part
of this repository).  Per §4.1 and §8.1 of the spec it must interpret ISO
`YYYY-MM-DD` dates, `"July 15, 2025"`-style and `"15 Jul 2025"`-style text
case-insensitively; inputs it cannot interpret make it raise, modelled here
as `Option.none`. -/
def dateutilParseDate (s : Str) : Option (Nat × Nat × Nat) :=
  match splitTokens (pyLower s) with
  | [t] => isoTriple t
  | [a, b, c] => wordTriple a b c
  | _ => Option.none

/-- `datetime.strftime('%Y-%m-%d')`. -/
def fmtDate (ymd : Nat × Nat × Nat) : Str :=
  pad4 ymd.1 ++ 45 :: (pad2 ymd.2.1 ++ 45 :: pad2 ymd.2.2)

/-- `parse_date` from `src/utils/date_parser.py` (lines 16-38): empty or
non-string input returns empty; otherwise strip, try the fuzzy parser and
format `%Y-%m-%d`; any interpretation failure returns empty. -/
def parse_date (date_string : PyVal) : Str :=
  match date_string with
  | .str s =>
    if s = [] then []
    else
      match dateutilParseDate (pyStrip s) with
      | some ymd => fmtDate ymd
      | Option.none => []
  | _ => []

example : parse_date (.str (lit "July 15, 2025")) = lit "2025-07-15" := by decide
example : parse_date (.str (lit "2025-07-15")) = lit "2025-07-15" := by decide
example : parse_date (.str (lit "15 Jul 2025")) = lit "2025-07-15" := by decide
example : parse_date (.str (lit "not a date")) = [] := by decide

/-- `H:MM`-shaped token: both pieces nonempty digit strings of at most 2 chars. -/
def parseHM (t : Str) : Option (Nat × Nat) :=
  match splitChar 58 t with
  | [a, b] =>
    match digitsToNat a, digitsToNat b with
    | some h, some m => if a.length ≤ 2 ∧ b.length ≤ 2 then some (h, m) else Option.none
    | _, _ => Option.none
  | _ => Option.none

/-- `H:MM` or bare `H` token. -/
def parseHOrHM (t : Str) : Option (Nat × Nat) :=
  if t.any (fun c => c = 58) then parseHM t
  else
    match digitsToNat t with
    | some h => if t.length ≤ 2 then some (h, 0) else Option.none
    | Option.none => Option.none

/-- Modelled from the spec: the third-party fuzzy time interpreter wrapped by
`parse_time` (the `dateutil` parser, not part of this repository).  Per §4.1
and §8.2 it must interpret `2:30pm`/`2:30 PM`-style 12-hour times and bare
24-hour `H:MM` times (case-insensitively), yielding a 24-hour `(hour, minute)`
pair; anything else makes it raise, modelled as `Option.none`. -/
def dateutilParseTime (s : Str) : Option (Nat × Nat) :=
  let l := pyLower s
  let last2 := (l.reverse.take 2).reverse
  if last2 = lit "am" then
    match parseHOrHM (pyStrip ((l.reverse.drop 2).reverse)) with
    | some (h, m) => if 1 ≤ h ∧ h ≤ 12 ∧ m ≤ 59 then some (h % 12, m) else Option.none
    | Option.none => Option.none
  else if last2 = lit "pm" then
    match parseHOrHM (pyStrip ((l.reverse.drop 2).reverse)) with
    | some (h, m) => if 1 ≤ h ∧ h ≤ 12 ∧ m ≤ 59 then some (h % 12 + 12, m) else Option.none
    | Option.none => Option.none
  else
    match parseHM l with
    | some (h, m) => if h ≤ 23 ∧ m ≤ 59 then some (h, m) else Option.none
    | Option.none => Option.none

/-- `datetime.strftime('%I:%M %p')` of a 24-hour `(hour, minute)` pair. -/
def strftimeIMp (h m : Nat) : Str :=
  pad2 (if h % 12 = 0 then 12 else h % 12) ++ 58 :: (pad2 m ++ 32 :: (if h < 12 then lit "AM" else lit "PM"))

/-- `_convert_24h_to_12h` from `src/utils/date_parser.py` (lines 88-103). -/
def convert_24h_to_12h (hour minute : Nat) : Str :=
  let period := if hour < 12 then lit "AM" else lit "PM"
  let hour12 := hour % 12
  let hour12 := if hour12 = 0 then 12 else hour12
  pad2 hour12 ++ 58 :: (pad2 minute ++ 32 :: period)

/-- `[ap]` with `re.IGNORECASE`. -/
def isAP (c : Nat) : Bool := c = 97 || c = 112 || c = 65 || c = 80

/-- `m` with `re.IGNORECASE`. -/
def isMChar (c : Nat) : Bool := c = 109 || c = 77

/-- Rest of pattern 1 `(\d{1,2}):(\d{2})\s*([ap]m)` after group 1. -/
def p1After (g1 : Str) : Str → Option (Str × Str × Str)
  | 58 :: r2 =>
    match r2 with
    | a :: b :: r3 =>
      if isDigit a && isDigit b then
        match r3.dropWhile isPyWs with
        | c1 :: c2 :: _ =>
          if isAP c1 && isMChar c2 then some (g1, [a, b], [c1, c2]) else Option.none
        | _ => Option.none
      else Option.none
    | _ => Option.none
  | _ => Option.none

/-- Match pattern 1 anchored at the head, with greedy `\d{1,2}` backtracking. -/
def tryP1 : Str → Option (Str × Str × Str)
  | [] => Option.none
  | d1 :: rest =>
    if isDigit d1 then
      match rest with
      | d2 :: rest2 =>
        if isDigit d2 then orE (p1After [d1, d2] rest2) (p1After [d1] rest)
        else p1After [d1] rest
      | [] => Option.none
    else Option.none

/-- `re.search` of pattern 1: leftmost match position wins. -/
def searchP1 : Str → Option (Str × Str × Str)
  | [] => Option.none
  | c :: t => orE (tryP1 (c :: t)) (searchP1 t)

/-- Rest of pattern 2 `(\d{1,2})\s*([ap]m)` after group 1. -/
def p2After (g1 : Str) (r : Str) : Option (Str × Str) :=
  match r.dropWhile isPyWs with
  | c1 :: c2 :: _ =>
    if isAP c1 && isMChar c2 then some (g1, [c1, c2]) else Option.none
  | _ => Option.none

/-- Match pattern 2 anchored at the head, with greedy `\d{1,2}` backtracking. -/
def tryP2 : Str → Option (Str × Str)
  | [] => Option.none
  | d1 :: rest =>
    if isDigit d1 then
      match rest with
      | d2 :: rest2 =>
        if isDigit d2 then orE (p2After [d1, d2] rest2) (p2After [d1] rest)
        else p2After [d1] rest
      | [] => Option.none
    else Option.none

/-- `re.search` of pattern 2. -/
def searchP2 : Str → Option (Str × Str)
  | [] => Option.none
  | c :: t => orE (tryP2 (c :: t)) (searchP2 t)

/-- Rest of pattern 3 `(\d{1,2}):(\d{2})(?!\s*[ap]m)` after group 1, with the
negative lookahead. -/
def p3After (g1 : Str) : Str → Option (Str × Str)
  | 58 :: r2 =>
    match r2 with
    | a :: b :: r3 =>
      if isDigit a && isDigit b then
        match r3.dropWhile isPyWs with
        | c1 :: c2 :: _ =>
          if isAP c1 && isMChar c2 then Option.none else some (g1, [a, b])
        | _ => some (g1, [a, b])
      else Option.none
    | _ => Option.none
  | _ => Option.none

/-- Match pattern 3 anchored at the head, with greedy `\d{1,2}` backtracking. -/
def tryP3 : Str → Option (Str × Str)
  | [] => Option.none
  | d1 :: rest =>
    if isDigit d1 then
      match rest with
      | d2 :: rest2 =>
        if isDigit d2 then orE (p3After [d1, d2] rest2) (p3After [d1] rest)
        else p3After [d1] rest
      | [] => Option.none
    else Option.none

/-- `re.search` of pattern 3. -/
def searchP3 : Str → Option (Str × Str)
  | [] => Option.none
  | c :: t => orE (tryP3 (c :: t)) (searchP3 t)

/-- The literal all-day phrases recognized by `parse_time` (line 57). -/
def allDayPhrases : List Str := [lit "all day", lit "all-day", lit "allday"]

/-- `parse_time` from `src/utils/date_parser.py` (lines 41-85): empty or
non-string input returns empty; strip; the stripped text lowercased equal to
an all-day phrase returns `All Day`; otherwise try the fuzzy interpreter and
format `%I:%M %p`; on failure try the three regex patterns in order with their
formatters; if nothing matches return the stripped text. -/
def parse_time (time_string : PyVal) : Str :=
  match time_string with
  | .str s =>
    if s = [] then []
    else
      let ts := pyStrip s
      if pyLower ts ∈ allDayPhrases then lit "All Day"
      else
        match dateutilParseTime ts with
        | some (h, m) => strftimeIMp h m
        | Option.none =>
          match searchP1 ts with
          | some (g1, g2, g3) => pad2 (digitsVal g1) ++ 58 :: (g2 ++ 32 :: pyUpper g3)
          | Option.none =>
            match searchP2 ts with
            | some (g1, g3) => pad2 (digitsVal g1) ++ lit ":00 " ++ pyUpper g3
            | Option.none =>
              match searchP3 ts with
              | some (g1, g2) => convert_24h_to_12h (digitsVal g1) (digitsVal g2)
              | Option.none => ts
  | _ => []

example : parse_time (.str (lit "2:30pm")) = lit "02:30 PM" := by decide
example : parse_time (.str (lit "2:30 PM")) = lit "02:30 PM" := by decide
example : parse_time (.str (lit "14:30")) = lit "02:30 PM" := by decide
example : parse_time (.str (lit "All Day")) = lit "All Day" := by decide
example : parse_time (.str (lit "ALL-DAY")) = lit "All Day" := by decide
example : parse_time (.str (lit "gibberish##")) = lit "gibberish##" := by decide
example : parse_time (.str (lit " gib# ")) = lit "gib#" := by decide
example : parse_time (.str (lit "0:30")) = lit "12:30 AM" := by decide
example : parse_time (.str (lit "12:05")) = lit "12:05 PM" := by decide
example : parse_time (.str (lit "25:99")) = lit "01:99 PM" := by decide
example : parse_time (.str (lit "around 7pm")) = lit "07:00 PM" := by decide

/-- The text fields cleaned by `normalize_event` (`src/utils/normalizer.py`
lines 36-40). -/
def textFields : List Str :=
  [lit "title", lit "description", lit "location", lit "registration_url",
   lit "image_url", lit "target_age", lit "event_url", lit "source_organization"]

/-- One text field's cleaned value (lines 43-47): a nonempty string is
stripped, anything else becomes the empty string. -/
def normTextVal : PyVal → Str
  | .str s => if s = [] then [] else pyStrip s
  | _ => []

/-- One iteration of the text-field loop (lines 42-47). -/
def normTextStep (n : Record) (f : Str) : Record :=
  pySet n f (.str (normTextVal (pyGetD n f (.str []))))

/-- The text-field loop over all eight fields. -/
def normTextFields (r : Record) : Record := textFields.foldl normTextStep r

/-- The full mutation chain of `normalize_event` (lines 31-68) on a dict:
text-field cleaning, then date, time and `scraped_at` normalization.
`now` is the `datetime.now().isoformat()` timestamp, passed explicitly. -/
def normalizeRec (now : Str) (event : Record) : Record :=
  let n1 := normTextFields event
  let dv := pyGetD n1 (lit "when_date") (.str [])
  let n2 :=
    if pyTruthy dv then pySet n1 (lit "when_date") (.str (parse_date (.str (pyStr dv))))
    else pySet n1 (lit "when_date") (.str [])
  let tv := pyGetD n2 (lit "when_time") (.str [])
  let n3 :=
    if pyTruthy tv then pySet n2 (lit "when_time") (.str (parse_time (.str (pyStr tv))))
    else pySet n2 (lit "when_time") (.str [])
  match pyLookup n3 (lit "scraped_at") with
  | Option.none => pySet n3 (lit "scraped_at") (.str now)
  | some v => if pyTruthy v then n3 else pySet n3 (lit "scraped_at") (.str now)

/-- `normalize_event` on a dict (lines 31-78): run the mutation chain, then
reject (`None`) when the resulting `title` is falsy. -/
def normalize_event (now : Str) (event : Record) : Option Record :=
  let normalized := normalizeRec now event
  if pyTruthy (pyGetD normalized (lit "title") .none) then some normalized else Option.none

/-- The `try` body of `normalize_event` on an arbitrary Python object: a
non-dict raises `AttributeError` at `event.copy()` / `normalized.get(...)`. -/
def normalizeEventBody (now : Str) : PyObj → Except PyExc (Option Record)
  | .dict r => .ok (normalize_event now r)
  | .atom _ => .error .attributeError

/-- `normalize_event` as called on an arbitrary object, with the
`except Exception` handler of lines 80-82 turning any exception into `None`. -/
def normalize_event_obj (now : Str) (obj : PyObj) : Option Record :=
  match normalizeEventBody now obj with
  | .ok res => res
  | .error _ => Option.none

/-- `normalize_events` from `src/utils/normalizer.py` (lines 85-106): the
append-if-valid loop. -/
def normalize_events (now : Str) : List Record → List Record
  | [] => []
  | e :: t =>
    match normalize_event now e with
    | some n => n :: normalize_events now t
    | Option.none => normalize_events now t

example :
    normalize_event (lit "T0") [(lit "title", .str (lit "  Fair "))] =
      some [(lit "title", .str (lit "Fair")), (lit "description", .str []),
            (lit "location", .str []), (lit "registration_url", .str []),
            (lit "image_url", .str []), (lit "target_age", .str []),
            (lit "event_url", .str []), (lit "source_organization", .str []),
            (lit "when_date", .str []), (lit "when_time", .str []),
            (lit "scraped_at", .str (lit "T0"))] := by decide

example : normalize_event (lit "T0") [(lit "title", .str (lit "  "))] = Option.none := by decide
example : normalize_event (lit "T0") [(lit "title", .int 5)] = Option.none := by decide
example : normalize_event (lit "T0") [] = Option.none := by decide
example :
    (normalize_event (lit "T0")
      [(lit "title", .str (lit "T")), (lit "extra", .str (lit "x"))]).map
        (fun r => pyLookup r (lit "extra")) = some (some (.str (lit "x"))) := by decide

/-- UTF-8 encoding of one codepoint. -/
def utf8EncodeChar (c : Nat) : List Nat :=
  if c < 128 then [c]
  else if c < 2048 then [192 + c / 64, 128 + c % 64]
  else if c < 65536 then [224 + c / 4096, 128 + (c / 64) % 64, 128 + c % 64]
  else [240 + c / 262144, 128 + (c / 4096) % 64, 128 + (c / 64) % 64, 128 + c % 64]

/-- Python `str.encode()` (UTF-8 bytes). -/
def utf8Encode (s : Str) : List Nat := (s.map utf8EncodeChar).flatten

/-- Truncate to 32 bits. -/
def w32 (x : Nat) : Nat := x % 4294967296

/-- 32-bit right rotation. -/
def rotr32 (n x : Nat) : Nat := w32 (Nat.lor (x >>> n) (x <<< (32 - n)))

/-- Bisection step for the integer cube root. -/
def icbrtGo (n : Nat) : Nat → Nat → Nat → Nat
  | 0, lo, _ => lo
  | fuel + 1, lo, hi =>
    if hi ≤ lo + 1 then lo
    else
      let mid := (lo + hi) / 2
      if mid * mid * mid ≤ n then icbrtGo n fuel mid hi else icbrtGo n fuel lo mid

/-- Integer cube root (largest `r` with `r³ ≤ n`), for the SHA-256 constants. -/
def icbrt (n : Nat) : Nat := icbrtGo n 200 0 (n + 1)

/-- The first 64 primes (2 … 311). -/
def first64Primes : List Nat :=
  ((List.range 312).filter (fun n => decide (Nat.Prime n))).take 64

/-- SHA-256 initial hash values: the first 32 bits of the fractional parts of
the square roots of the first 8 primes. -/
def sha256H0 : List Nat :=
  (first64Primes.take 8).map (fun p => Nat.sqrt (p * 2 ^ 64) % 2 ^ 32)

/-- SHA-256 round constants: the first 32 bits of the fractional parts of the
cube roots of the first 64 primes. -/
def sha256K : List Nat := first64Primes.map (fun p => icbrt (p * 2 ^ 96) % 2 ^ 32)

/-- SHA-256 `Σ0`. -/
def bigSigma0 (x : Nat) : Nat := rotr32 2 x ^^^ rotr32 13 x ^^^ rotr32 22 x

/-- SHA-256 `Σ1`. -/
def bigSigma1 (x : Nat) : Nat := rotr32 6 x ^^^ rotr32 11 x ^^^ rotr32 25 x

/-- SHA-256 `σ0`. -/
def smallSigma0 (x : Nat) : Nat := rotr32 7 x ^^^ rotr32 18 x ^^^ (x >>> 3)

/-- SHA-256 `σ1`. -/
def smallSigma1 (x : Nat) : Nat := rotr32 17 x ^^^ rotr32 19 x ^^^ (x >>> 10)

/-- SHA-256 `Ch`. -/
def chF (x y z : Nat) : Nat := (x &&& y) ^^^ ((x ^^^ 4294967295) &&& z)

/-- SHA-256 `Maj`. -/
def majF (x y z : Nat) : Nat := (x &&& y) ^^^ (x &&& z) ^^^ (y &&& z)

/-- 8-byte big-endian encoding. -/
def be8 (n : Nat) : List Nat :=
  [(n >>> 56) % 256, (n >>> 48) % 256, (n >>> 40) % 256, (n >>> 32) % 256,
   (n >>> 24) % 256, (n >>> 16) % 256, (n >>> 8) % 256, n % 256]

/-- SHA-256 message padding. -/
def sha256Pad (msg : List Nat) : List Nat :=
  msg ++ 128 :: (List.replicate ((119 - msg.length % 64) % 64) 0 ++ be8 (8 * msg.length))

/-- Pack bytes into big-endian 32-bit words. -/
def toWords : List Nat → List Nat
  | b0 :: b1 :: b2 :: b3 :: rest => (((b0 * 256 + b1) * 256 + b2) * 256 + b3) :: toWords rest
  | _ => []

/-- Extend the 16-word block by one scheduled word, `fuel` times. -/
def scheduleGo : Nat → List Nat → List Nat
  | 0, acc => acc
  | fuel + 1, acc =>
    let i := acc.length
    let w := w32 (smallSigma1 (acc.getD (i - 2) 0) + acc.getD (i - 7) 0 +
                  smallSigma0 (acc.getD (i - 15) 0) + acc.getD (i - 16) 0)
    scheduleGo fuel (acc ++ [w])

/-- The 64-word SHA-256 message schedule. -/
def schedule (ws : List Nat) : List Nat := scheduleGo 48 ws

/-- One SHA-256 compression round on the 8-word state. -/
def compressStep (st : List Nat) (kw : Nat × Nat) : List Nat :=
  match st with
  | [a, b, c, d, e, f, g, h] =>
    let t1 := w32 (h + bigSigma1 e + chF e f g + kw.1 + kw.2)
    let t2 := w32 (bigSigma0 a + majF a b c)
    [w32 (t1 + t2), a, b, c, w32 (d + t1), e, f, g]
  | _ => st

/-- Process one padded 64-byte block. -/
def processBlock (H : List Nat) (block : List Nat) : List Nat :=
  let st := ((sha256K.zip (schedule (toWords block))).foldl compressStep H)
  (H.zip st).map (fun p => w32 (p.1 + p.2))

/-- Split into 64-byte chunks (fuel-driven). -/
def chunksGo : Nat → List Nat → List (List Nat)
  | 0, _ => []
  | _ + 1, [] => []
  | fuel + 1, l => l.take 64 :: chunksGo fuel (l.drop 64)

/-- SHA-256 state after digesting a byte string. -/
def sha256Words (msg : List Nat) : List Nat :=
  let padded := sha256Pad msg
  (chunksGo padded.length padded).foldl processBlock sha256H0

/-- Lowercase hex digit. -/
def hexDigit (n : Nat) : Nat := if n < 10 then 48 + n else 87 + n

/-- 8-hex-digit rendering of a 32-bit word. -/
def word2hex (w : Nat) : Str :=
  (List.range 8).map (fun i => hexDigit ((w >>> (28 - 4 * i)) % 16))

/-- `hashlib.sha256(bytes).hexdigest()`. -/
def sha256hex (msg : List Nat) : Str := ((sha256Words msg).map word2hex).flatten

deriving instance DecidableEq for Except

/-- Lines 27-33 of `src/utils/deduplicator.py`: the pre-hash
`f"{title}|{date}|{location}"` string from the lowercased, stripped fields.
Calling `.strip()` on a stored non-string value raises `AttributeError`. -/
def uniqueStringE (event : Record) : Except PyExc Str :=
  match pyGetD event (lit "title") (.str []) with
  | .str t =>
    match pyGetD event (lit "when_date") (.str []) with
    | .str d =>
      match pyGetD event (lit "location") (.str []) with
      | .str l =>
        .ok (pyLower (pyStrip t) ++ 124 :: (pyLower (pyStrip d) ++ 124 :: pyLower (pyStrip l)))
      | _ => .error .attributeError
    | _ => .error .attributeError
  | _ => .error .attributeError

/-- `create_event_hash` from `src/utils/deduplicator.py` (lines 15-37):
SHA-256 hex digest of the UTF-8 bytes of the pre-hash string. -/
def createEventHashE (event : Record) : Except PyExc Str :=
  (uniqueStringE event).map (fun u => sha256hex (utf8Encode u))

/-- The loop of `deduplicate_events` (lines 53-76), with the seen-hash set as
a list used only through membership. -/
def dedupGo (seen : List Str) : List Record → Except PyExc (List Record)
  | [] => .ok []
  | e :: rest =>
    match createEventHashE e with
    | .error ex => .error ex
    | .ok h =>
      if h ∈ seen then dedupGo seen rest
      else
        match dedupGo (h :: seen) rest with
        | .error ex => .error ex
        | .ok t => .ok (e :: t)

/-- `deduplicate_events` from `src/utils/deduplicator.py` (lines 40-76). -/
def deduplicate_events (events : List Record) : Except PyExc (List Record) :=
  dedupGo [] events

/-- The fingerprint of a record whose hash computation succeeds (arbitrary
value on the error case, which the theorems exclude). -/
def okHash (r : Record) : Str :=
  match createEventHashE r with
  | .ok h => h
  | .error _ => []

/-- The spec's description of deduplication (§4.3, §8.5): keep exactly those
events whose fingerprint does not occur among the events at earlier input
positions; `prev` is the list of already-passed events. -/
def dedupFirstSeen (prev : List Record) : List Record → List Record
  | [] => []
  | e :: rest =>
    if okHash e ∈ prev.map okHash then dedupFirstSeen (prev ++ [e]) rest
    else e :: dedupFirstSeen (prev ++ [e]) rest

/-- Outcome of scraping one configured site: a list of raw event records, or
a per-site failure (unknown method, or an exception from the scraper). -/
inductive SiteOutcome : Type
  | ok (evs : List Record)
  | err
deriving DecidableEq

/-- The run statistics of `EventScraperOrchestrator` (`src/main.py` lines
76-83), with `sources` an insertion-ordered dict. -/
structure Stats : Type where
  total_events : Nat
  unique_events : Nat
  duplicates_removed : Nat
  successful_sites : Nat
  failed_sites : Nat
  sources : List (Str × Nat)
deriving DecidableEq

/-- The statistics at `__init__`. -/
def initStats : Stats := ⟨0, 0, 0, 0, 0, []⟩

/-- One iteration of `_scrape_all_sites` (`src/main.py` lines 171-208):
failures and empty results count as failed; otherwise the events extend the
pool, `total_events` grows, and the per-source count is stored by name. -/
def scrapeStep (acc : Stats × List Record) (site : Str × SiteOutcome) : Stats × List Record :=
  match site.2 with
  | .err => ({ acc.1 with failed_sites := acc.1.failed_sites + 1 }, acc.2)
  | .ok evs =>
    if evs = [] then ({ acc.1 with failed_sites := acc.1.failed_sites + 1 }, acc.2)
    else
      ({ acc.1 with
          successful_sites := acc.1.successful_sites + 1,
          total_events := acc.1.total_events + evs.length,
          sources := pySet acc.1.sources site.1 evs.length },
        acc.2 ++ evs)

/-- `_scrape_all_sites` over the configured sites. -/
def scrape_all_sites (sites : List (Str × SiteOutcome)) : Stats × List Record :=
  sites.foldl scrapeStep (initStats, [])

/-- Steps 1-3 of `EventScraperOrchestrator.run` (`src/main.py` lines
124-140): scrape, normalize the pooled batch, deduplicate, and record
`duplicates_removed` and `unique_events`.  An exception aborts the run before
any statistics are reported (`sys.exit(1)`), modelled by `.error`. -/
def runPipeline (now : Str) (sites : List (Str × SiteOutcome)) :
    Except PyExc (Stats × List Record) :=
  let scraped := scrape_all_sites sites
  let norm := normalize_events now scraped.2
  match deduplicate_events norm with
  | .error e => .error e
  | .ok uniq =>
    .ok ({ scraped.1 with
            duplicates_removed := norm.length - uniq.length,
            unique_events := uniq.length },
          uniq)

example : uniqueStringE [(lit "title", .str (lit " The FAIR ")), (lit "when_date", .str (lit "2025-07-15")),
    (lit "location", .str (lit "Hall"))] = .ok (lit "the fair|2025-07-15|hall") := by decide
example : uniqueStringE [(lit "title", .int 3)] = .error .attributeError := by decide
example : uniqueStringE [] = .ok (lit "||") := by decide

theorem isPyWs_iff {c : Nat} :
    isPyWs c = true ↔ (c = 32 ∨ c = 9 ∨ c = 10 ∨ c = 13 ∨ c = 11 ∨ c = 12) := by
  simp [isPyWs]
  tauto

theorem isPyWs_lowerChar (c : Nat) : isPyWs (lowerChar c) = isPyWs c := by
  unfold lowerChar
  split
  · rename_i h
    have h1 : isPyWs (c + 32) = false := by
      rw [Bool.eq_false_iff]
      intro hc
      rw [isPyWs_iff] at hc
      omega
    have h2 : isPyWs c = false := by
      rw [Bool.eq_false_iff]
      intro hc
      rw [isPyWs_iff] at hc
      omega
    rw [h1, h2]
  · rfl

theorem dropWhile_ws_append {u s : Str} (h : ∀ x ∈ u, isPyWs x = true) :
    (u ++ s).dropWhile isPyWs = s.dropWhile isPyWs := by
  induction u with
  | nil => rfl
  | cons a t ih =>
    rw [List.cons_append, List.dropWhile_cons, h a (by simp)]
    exact ih (fun x hx => h x (by simp [hx]))

theorem ltrim_ws_append {u s : Str} (h : ∀ x ∈ u, isPyWs x = true) :
    ltrim (u ++ s) = ltrim s :=
  dropWhile_ws_append h

theorem rtrim_append_ws {s v : Str} (h : ∀ x ∈ v, isPyWs x = true) :
    rtrim (s ++ v) = rtrim s := by
  unfold rtrim
  rw [List.reverse_append, dropWhile_ws_append (fun x hx => h x (List.mem_reverse.mp hx))]

theorem ltrim_all_ws {u : Str} (h : ∀ x ∈ u, isPyWs x = true) : ltrim u = [] := by
  have := ltrim_ws_append (s := []) h
  simpa [ltrim] using this

theorem ltrim_append (a b : Str) :
    ltrim (a ++ b) = if ltrim a = [] then ltrim b else ltrim a ++ b := by
  induction a with
  | nil => simp [ltrim]
  | cons x t ih =>
    by_cases hx : isPyWs x = true
    · rw [List.cons_append]
      unfold ltrim at *
      rw [List.dropWhile_cons, hx, List.dropWhile_cons, hx]
      exact ih
    · unfold ltrim at *
      rw [List.cons_append, List.dropWhile_cons, List.dropWhile_cons]
      simp only [hx]
      simp

theorem rtrim_nil : rtrim [] = [] := rfl

theorem pyStrip_ws_pad {u1 c u2 : Str} (h1 : ∀ x ∈ u1, isPyWs x = true)
    (h2 : ∀ x ∈ u2, isPyWs x = true) :
    pyStrip (u1 ++ c ++ u2) = pyStrip c := by
  unfold pyStrip
  rw [List.append_assoc, ltrim_ws_append h1, ltrim_append]
  by_cases hc : ltrim c = []
  · rw [if_pos hc, hc, ltrim_all_ws h2]
  · rw [if_neg hc, rtrim_append_ws h2]

theorem dropWhile_ws_map_lower (l : Str) :
    (l.map lowerChar).dropWhile isPyWs = (l.dropWhile isPyWs).map lowerChar := by
  induction l with
  | nil => rfl
  | cons a t ih =>
    rw [List.map_cons, List.dropWhile_cons, List.dropWhile_cons, isPyWs_lowerChar]
    by_cases h : isPyWs a = true
    · rw [h]
      simpa using ih
    · simp only [h]
      simp

theorem pyStrip_pyLower (s : Str) : pyStrip (pyLower s) = pyLower (pyStrip s) := by
  unfold pyStrip pyLower ltrim rtrim
  rw [dropWhile_ws_map_lower, ← List.map_reverse, dropWhile_ws_map_lower, List.map_reverse]

theorem pyLookup_pySet_self {α : Type} (r : List (Str × α)) (k : Str) (v : α) :
    pyLookup (pySet r k v) k = some v := by
  induction r with
  | nil => simp [pySet, pyLookup]
  | cons p t ih =>
    obtain ⟨k', v'⟩ := p
    by_cases h : k' = k
    · simp [pySet, h, pyLookup]
    · simp [pySet, h, pyLookup, ih]

theorem pyLookup_pySet_ne {α : Type} (r : List (Str × α)) (k k' : Str) (v : α)
    (h : k ≠ k') : pyLookup (pySet r k v) k' = pyLookup r k' := by
  induction r with
  | nil => simp [pySet, pyLookup, h]
  | cons p t ih =>
    obtain ⟨k0, v0⟩ := p
    by_cases h0 : k0 = k
    · subst h0
      simp [pySet, pyLookup, h, ih]
    · simp [pySet, h0, pyLookup, ih]

theorem pySet_fresh {α : Type} {r : List (Str × α)} {k : Str} (v : α)
    (h : k ∉ keysOf r) : pySet r k v = r ++ [(k, v)] := by
  induction r with
  | nil => rfl
  | cons p t ih =>
    obtain ⟨k0, v0⟩ := p
    have hk : k0 ≠ k := by
      intro he
      exact h (by simp [keysOf, he])
    simp only [pySet, hk, if_false, List.cons_append]
    rw [ih (fun hm => h (by simp [keysOf] at hm ⊢; tauto))]

theorem keysOf_pySet {α : Type} (r : List (Str × α)) (k : Str) (v : α) :
    ∀ k', k' ∈ keysOf (pySet r k v) → k' ∈ keysOf r ∨ k' = k := by
  induction r with
  | nil => simp [pySet, keysOf]
  | cons p t ih =>
    obtain ⟨k0, v0⟩ := p
    intro k' hk'
    by_cases h0 : k0 = k
    · simp [pySet, h0, keysOf] at hk' ⊢
      tauto
    · simp [pySet, h0, keysOf] at hk' ⊢
      rcases hk' with h | h
      · tauto
      · rcases ih k' (by simp [keysOf, h]) with h2 | h2
        · simp [keysOf] at h2
          tauto
        · tauto

theorem natDecAux_spec :
    ∀ fuel n, n < fuel →
      natDecAux fuel n ≠ [] ∧ (∀ c ∈ natDecAux fuel n, 48 ≤ c ∧ c ≤ 57) ∧
        digitsVal (natDecAux fuel n) = n := by
  intro fuel
  induction fuel with
  | zero => omega
  | succ f ih =>
    intro n hn
    by_cases h10 : n < 10
    · refine ⟨by simp [natDecAux, h10], ?_, ?_⟩
      · intro c hc
        simp [natDecAux, h10] at hc
        omega
      · simp [natDecAux, h10, digitsVal, List.foldl]
    · have hd : n / 10 < f := by omega
      obtain ⟨hne, hdig, hval⟩ := ih (n / 10) hd
      have hrw : natDecAux (f + 1) n = natDecAux f (n / 10) ++ [48 + n % 10] := by
        simp [natDecAux, h10]
      refine ⟨by simp [hrw], ?_, ?_⟩
      · intro c hc
        rw [hrw] at hc
        rcases List.mem_append.mp hc with h | h
        · exact hdig c h
        · simp at h
          omega
      · rw [hrw]
        unfold digitsVal at *
        rw [List.foldl_append, hval]
        simp
        omega

theorem natDec_spec (n : Nat) :
    natDec n ≠ [] ∧ (∀ c ∈ natDec n, 48 ≤ c ∧ c ≤ 57) ∧ digitsVal (natDec n) = n :=
  natDecAux_spec (n + 1) n (by omega)

theorem natDec_small {n : Nat} (h : n < 10) : natDec n = [48 + n] := by
  simp [natDec, natDecAux, h]

theorem natDec_len2 {n : Nat} (h : n < 100) : (natDec n).length ≤ 2 := by
  by_cases h10 : n < 10
  · rw [natDec_small h10]
    simp
  · have : natDec n = natDecAux n (n / 10) ++ [48 + n % 10] := by
      simp [natDec, natDecAux, h10]
    rw [this]
    have hd : n / 10 < 10 := by omega
    have : natDecAux n (n / 10) = [48 + n / 10] := by
      cases n with
      | zero => omega
      | succ m => simp [natDecAux, hd]
    rw [this]
    simp

theorem pad2_spec {m : Nat} (h : m < 100) :
    (pad2 m).length = 2 ∧ (∀ c ∈ pad2 m, 48 ≤ c ∧ c ≤ 57) ∧ digitsVal (pad2 m) = m := by
  obtain ⟨hne, hdig, hval⟩ := natDec_spec m
  by_cases h10 : m < 10
  · rw [pad2, if_pos h10, natDec_small h10]
    refine ⟨by simp, ?_, ?_⟩
    · intro c hc
      simp at hc
      omega
    · simp [digitsVal, List.foldl]
  · rw [pad2, if_neg h10]
    refine ⟨?_, hdig, hval⟩
    have hle := natDec_len2 h
    have : 2 ≤ (natDec m).length := by
      by_contra hlt
      push_neg at hlt
      interval_cases hl : (natDec m).length
      · exact hne (List.length_eq_zero.mp hl)
      · obtain ⟨c, hc⟩ := List.length_eq_one.mp hl
        have : digitsVal [c] = m := by rw [← hc]; exact hval
        simp [digitsVal, List.foldl] at this
        have := hdig c (by simp [hc])
        omega
    omega

theorem digitsToNat_natDec (n : Nat) : digitsToNat (natDec n) = some n := by
  obtain ⟨hne, hdig, hval⟩ := natDec_spec n
  rw [digitsToNat, if_pos, hval]
  refine ⟨hne, ?_⟩
  rw [List.all_eq_true]
  intro c hc
  have := hdig c hc
  simp [isDigit]
  omega

theorem digitsToNat_pad2 {m : Nat} (h : m < 100) : digitsToNat (pad2 m) = some m := by
  obtain ⟨hlen, hdig, hval⟩ := pad2_spec h
  rw [digitsToNat, if_pos, hval]
  refine ⟨by intro he; rw [he] at hlen; simp at hlen, ?_⟩
  rw [List.all_eq_true]
  intro c hc
  have := hdig c hc
  simp [isDigit]
  omega

/-- A bare 24-hour `H:MM` time string: unpadded hour, two-digit minute. -/
def renderHM (h m : Nat) : Str := natDec h ++ 58 :: pad2 m

theorem dropWhile_of_no_ws {l : Str} (h : ∀ c ∈ l, isPyWs c = false) :
    l.dropWhile isPyWs = l := by
  induction l with
  | nil => rfl
  | cons a t ih =>
    rw [List.dropWhile_cons, h a (by simp)]
    simp

theorem pyStrip_of_no_ws {l : Str} (h : ∀ c ∈ l, isPyWs c = false) : pyStrip l = l := by
  unfold pyStrip ltrim rtrim
  rw [dropWhile_of_no_ws h, dropWhile_of_no_ws (fun c hc => h c (List.mem_reverse.mp hc)),
    List.reverse_reverse]

theorem pyLower_of_lt65 {l : Str} (h : ∀ c ∈ l, c < 65) : pyLower l = l := by
  unfold pyLower
  induction l with
  | nil => rfl
  | cons a t ih =>
    rw [List.map_cons, ih (fun c hc => h c (by simp [hc]))]
    have := h a (by simp)
    unfold lowerChar
    rw [if_neg (by omega)]

theorem renderHM_chars {h m : Nat} (hm : m < 100) :
    ∀ c ∈ renderHM h m, 48 ≤ c ∧ c ≤ 58 := by
  intro c hc
  unfold renderHM at hc
  rcases List.mem_append.mp hc with hc | hc
  · have := (natDec_spec h).2.1 c hc
    omega
  · rcases List.mem_cons.mp hc with hc | hc
    · omega
    · have := (pad2_spec hm).2.1 c hc
      omega

theorem renderHM_no_ws {h m : Nat} (hm : m < 100) :
    ∀ c ∈ renderHM h m, isPyWs c = false := by
  intro c hc
  have := renderHM_chars hm c hc
  rw [Bool.eq_false_iff]
  intro hw
  rw [isPyWs_iff] at hw
  omega

theorem renderHM_ne_nil (h m : Nat) : renderHM h m ≠ [] := by
  unfold renderHM
  simp

theorem pyLower_renderHM {h m : Nat} (hm : m < 100) :
    pyLower (renderHM h m) = renderHM h m :=
  pyLower_of_lt65 (fun c hc => by have := renderHM_chars hm c hc; omega)

theorem renderHM_last2 {h m : Nat} (hm : m < 100) :
    ((renderHM h m).reverse.take 2).reverse = pad2 m := by
  have hlen : (pad2 m).length = 2 := (pad2_spec hm).1
  unfold renderHM
  rw [List.reverse_append, List.reverse_cons]
  rw [List.append_assoc]
  rw [List.take_append_of_le_length (by rw [List.length_reverse, hlen])]
  rw [List.take_of_length_le (by rw [List.length_reverse, hlen])]
  exact List.reverse_reverse _

theorem splitCharGo_no_sep {sep : Nat} {l cur : Str} (h : ∀ c ∈ l, c ≠ sep) :
    splitCharGo sep l cur = [cur.reverse ++ l] := by
  induction l generalizing cur with
  | nil => simp [splitCharGo]
  | cons c t ih =>
    rw [splitCharGo, if_neg (h c (by simp))]
    rw [ih (fun c' hc' => h c' (by simp [hc']))]
    simp

theorem splitCharGo_mid {sep : Nat} {a b cur : Str} (ha : ∀ c ∈ a, c ≠ sep)
    (hb : ∀ c ∈ b, c ≠ sep) :
    splitCharGo sep (a ++ sep :: b) cur = (cur.reverse ++ a) :: [b] := by
  induction a generalizing cur with
  | nil =>
    rw [List.nil_append, splitCharGo, if_pos rfl, splitCharGo_no_sep hb]
    simp
  | cons c t ih =>
    rw [List.cons_append, splitCharGo, if_neg (ha c (by simp))]
    rw [ih (fun c' hc' => ha c' (by simp [hc']))]
    simp

theorem splitChar_renderHM {h m : Nat} (hm : m < 100) :
    splitChar 58 (renderHM h m) = [natDec h, pad2 m] := by
  unfold splitChar renderHM
  rw [splitCharGo_mid
    (fun c hc => by have := (natDec_spec h).2.1 c hc; omega)
    (fun c hc => by have := (pad2_spec hm).2.1 c hc; omega)]
  simp

theorem parseHM_renderHM {h m : Nat} (hh : h < 100) (hm : m < 100) :
    parseHM (renderHM h m) = some (h, m) := by
  unfold parseHM
  rw [splitChar_renderHM hm]
  dsimp only
  rw [digitsToNat_natDec, digitsToNat_pad2 hm]
  dsimp only
  rw [if_pos ⟨natDec_len2 hh, by rw [(pad2_spec hm).1]⟩]

theorem pad2_ne_ampm {m : Nat} (hm : m < 100) :
    pad2 m ≠ lit "am" ∧ pad2 m ≠ lit "pm" := by
  obtain ⟨hlen, hdig, _⟩ := pad2_spec hm
  obtain ⟨a, b, hab⟩ := List.length_eq_two.mp hlen
  have ha := hdig a (by simp [hab])
  have hamv : lit "am" = [97, 109] := by decide
  have hpmv : lit "pm" = [112, 109] := by decide
  rw [hab, hamv, hpmv]
  constructor
  · intro he
    rw [List.cons.injEq] at he
    omega
  · intro he
    rw [List.cons.injEq] at he
    omega

theorem dateutilParseTime_renderHM {h m : Nat} (hh : h ≤ 23) (hm : m ≤ 59) :
    dateutilParseTime (renderHM h m) = some (h, m) := by
  have hm1 : m < 100 := by omega
  unfold dateutilParseTime
  dsimp only
  rw [pyLower_renderHM hm1]
  rw [renderHM_last2 hm1]
  rw [if_neg (pad2_ne_ampm hm1).1, if_neg (pad2_ne_ampm hm1).2]
  rw [parseHM_renderHM (by omega) hm1]
  dsimp only
  rw [if_pos ⟨hh, hm⟩]

theorem renderHM_not_allday {h m : Nat} (_hm : m < 100) :
    renderHM h m ∉ allDayPhrases := by
  obtain ⟨c, t, hct⟩ := List.exists_cons_of_ne_nil (natDec_spec h).1
  have hc : c ≤ 57 := by
    have := (natDec_spec h).2.1 c (by rw [hct]; simp)
    omega
  have hrw : renderHM h m = c :: (t ++ 58 :: pad2 m) := by
    unfold renderHM
    rw [hct]
    simp
  have h1 : lit "all day" = 97 :: lit "ll day" := by decide
  have h2 : lit "all-day" = 97 :: lit "ll-day" := by decide
  have h3 : lit "allday" = 97 :: lit "llday" := by decide
  intro hmem
  simp only [allDayPhrases, List.mem_cons, List.not_mem_nil, or_false] at hmem
  rcases hmem with hmem | hmem | hmem
  · rw [hrw, h1, List.cons.injEq] at hmem
    omega
  · rw [hrw, h2, List.cons.injEq] at hmem
    omega
  · rw [hrw, h3, List.cons.injEq] at hmem
    omega

theorem parse_time_bare24 {h m : Nat} (hh : h ≤ 23) (hm : m ≤ 59) :
    parse_time (.str (renderHM h m)) = strftimeIMp h m := by
  have hm1 : m < 100 := by omega
  unfold parse_time
  dsimp only
  rw [if_neg (renderHM_ne_nil h m)]
  rw [pyStrip_of_no_ws (renderHM_no_ws hm1)]
  rw [pyLower_renderHM hm1]
  rw [if_neg (renderHM_not_allday hm1)]
  rw [dateutilParseTime_renderHM hh hm]

/-- All keys `normalize_event` ever writes. -/
def recognizedKeys : List Str :=
  textFields ++ [lit "when_date", lit "when_time", lit "scraped_at"]

/-- The spec's §4.2 notion of the title after trimming: stripped if a string,
empty if absent or non-string. -/
def trimmedTitle (r : Record) : Str :=
  match pyGetD r (lit "title") (.str []) with
  | .str s => pyStrip s
  | _ => []

theorem lookup_foldl_norm_ne (fs : List Str) (n : Record) (k : Str)
    (h : ∀ f ∈ fs, f ≠ k) :
    pyLookup (fs.foldl normTextStep n) k = pyLookup n k := by
  induction fs generalizing n with
  | nil => rfl
  | cons f t ih =>
    rw [List.foldl_cons, ih _ (fun f' hf' => h f' (by simp [hf']))]
    exact pyLookup_pySet_ne _ _ _ _ (h f (by simp))

theorem lookup_normTextFields_title (r : Record) :
    pyLookup (normTextFields r) (lit "title") =
      some (.str (normTextVal (pyGetD r (lit "title") (.str [])))) := by
  unfold normTextFields textFields
  rw [List.foldl_cons, lookup_foldl_norm_ne _ _ _ (by decide)]
  exact pyLookup_pySet_self _ _ _

theorem lookup_normTextFields_ne (r : Record) (k : Str)
    (h : ∀ f ∈ textFields, f ≠ k) :
    pyLookup (normTextFields r) k = pyLookup r k :=
  lookup_foldl_norm_ne _ _ _ h

theorem lookup_normalizeRec_ne_special (now : Str) (r : Record) (k : Str)
    (hk1 : lit "when_date" ≠ k) (hk2 : lit "when_time" ≠ k)
    (hk3 : lit "scraped_at" ≠ k) :
    pyLookup (normalizeRec now r) k = pyLookup (normTextFields r) k := by
  unfold normalizeRec
  dsimp only
  repeat' split
  all_goals
    simp only [pyLookup_pySet_ne _ _ _ _ hk1, pyLookup_pySet_ne _ _ _ _ hk2,
      pyLookup_pySet_ne _ _ _ _ hk3]

theorem lookup_normalizeRec_title (now : Str) (r : Record) :
    pyLookup (normalizeRec now r) (lit "title") =
      some (.str (normTextVal (pyGetD r (lit "title") (.str [])))) := by
  rw [lookup_normalizeRec_ne_special now r (lit "title") (by decide) (by decide) (by decide)]
  exact lookup_normTextFields_title r

theorem lookup_normalizeRec_unrecognized (now : Str) (r : Record) (k : Str)
    (h : k ∉ recognizedKeys) :
    pyLookup (normalizeRec now r) k = pyLookup r k := by
  have hmem : ∀ f ∈ recognizedKeys, f ≠ k := by
    intro f hf he
    exact h (he ▸ hf)
  rw [lookup_normalizeRec_ne_special now r k
      (hmem _ (by simp [recognizedKeys])) (hmem _ (by simp [recognizedKeys]))
      (hmem _ (by simp [recognizedKeys]))]
  exact lookup_normTextFields_ne r k
    (fun f hf => hmem f (by simp [recognizedKeys, hf]))

theorem normTextVal_getD_title (r : Record) :
    normTextVal (pyGetD r (lit "title") (.str [])) = trimmedTitle r := by
  unfold normTextVal trimmedTitle
  cases pyGetD r (lit "title") (.str []) with
  | str s =>
    dsimp only
    by_cases hs : s = []
    · subst hs
      rfl
    · rw [if_neg hs]
  | int n => rfl
  | bool b => rfl
  | none => rfl

theorem normalize_event_none_iff (now : Str) (r : Record) :
    normalize_event now r = Option.none ↔ trimmedTitle r = [] := by
  unfold normalize_event
  dsimp only
  rw [pyGetD, lookup_normalizeRec_title, Option.getD_some, normTextVal_getD_title]
  by_cases ht : trimmedTitle r = []
  · rw [ht]
    simp [pyTruthy]
  · simp [pyTruthy, ht]

theorem normalize_event_some_eq (now : Str) (r : Record) (out : Record)
    (h : normalize_event now r = some out) : out = normalizeRec now r := by
  unfold normalize_event at h
  dsimp only at h
  split at h
  · exact (Option.some.injEq _ _ ▸ h).symm
  · exact absurd h (by simp)

theorem createEventHashE_ok {r : Record} {u : Str} (h : uniqueStringE r = .ok u) :
    createEventHashE r = .ok (sha256hex (utf8Encode u)) := by
  rw [createEventHashE, h]
  rfl

theorem okHash_of_ok {r : Record} {u : Str} (h : uniqueStringE r = .ok u) :
    okHash r = sha256hex (utf8Encode u) := by
  rw [okHash, createEventHashE_ok h]

theorem dedupGo_eq_firstSeen :
    ∀ (evs : List Record) (seen : List Str) (prev : List Record),
      (∀ r ∈ evs, ∃ u, uniqueStringE r = .ok u) →
      (∀ hsh, hsh ∈ seen ↔ hsh ∈ prev.map okHash) →
      dedupGo seen evs = .ok (dedupFirstSeen prev evs) := by
  intro evs
  induction evs with
  | nil =>
    intro seen prev _ _
    rfl
  | cons e rest ih =>
    intro seen prev hok hiff
    obtain ⟨u, hu⟩ := hok e (by simp)
    have hoe := okHash_of_ok hu
    simp only [dedupGo, dedupFirstSeen, createEventHashE_ok hu]
    by_cases hmem : sha256hex (utf8Encode u) ∈ seen
    · rw [if_pos hmem, if_pos (by rw [hoe]; exact (hiff _).mp hmem)]
      apply ih _ (prev ++ [e]) (fun r hr => hok r (by simp [hr]))
      intro hsh
      rw [List.map_append, List.mem_append]
      constructor
      · intro h
        exact Or.inl ((hiff hsh).mp h)
      · intro h
        rcases h with h | h
        · exact (hiff hsh).mpr h
        · simp at h
          rw [h, hoe]
          exact hmem
    · rw [if_neg hmem, if_neg (by rw [hoe]; exact fun hc => hmem ((hiff _).mpr hc))]
      rw [ih (sha256hex (utf8Encode u) :: seen) (prev ++ [e])
            (fun r hr => hok r (by simp [hr])) ?_]
      intro hsh
      rw [List.map_append, List.mem_append, List.mem_cons]
      constructor
      · intro h
        rcases h with h | h
        · refine Or.inr ?_
          simp [h, hoe]
        · exact Or.inl ((hiff hsh).mp h)
      · intro h
        rcases h with h | h
        · exact Or.inr ((hiff hsh).mpr h)
        · simp at h
          rw [h, hoe]
          exact Or.inl rfl

theorem dedupFirstSeen_sublist :
    ∀ (evs prev : List Record), List.Sublist (dedupFirstSeen prev evs) evs := by
  intro evs
  induction evs with
  | nil =>
    intro prev
    simp [dedupFirstSeen]
  | cons e rest ih =>
    intro prev
    rw [dedupFirstSeen]
    by_cases hmem : okHash e ∈ prev.map okHash
    · rw [if_pos hmem]
      exact (ih (prev ++ [e])).cons e
    · rw [if_neg hmem]
      exact (ih (prev ++ [e])).cons₂ e

theorem dedupGo_ok_length :
    ∀ (evs : List Record) (seen : List Str) (out : List Record),
      dedupGo seen evs = .ok out → out.length ≤ evs.length := by
  intro evs
  induction evs with
  | nil =>
    intro seen out h
    simp only [dedupGo] at h
    cases h
    simp
  | cons e rest ih =>
    intro seen out h
    simp only [dedupGo] at h
    cases hh : createEventHashE e with
    | error ex =>
      rw [hh] at h
      exact absurd h (by simp)
    | ok hv =>
      rw [hh] at h
      dsimp only at h
      by_cases hmem : hv ∈ seen
      · rw [if_pos hmem] at h
        have := ih seen out h
        simp
        omega
      · rw [if_neg hmem] at h
        cases hrec : dedupGo (hv :: seen) rest with
        | error ex =>
          rw [hrec] at h
          exact absurd h (by simp)
        | ok t =>
          rw [hrec] at h
          dsimp only at h
          cases h
          have := ih _ _ hrec
          simp
          omega

/-- The string stored at a key (empty for absent or non-string values). -/
def strD (r : Record) (k : Str) : Str :=
  match pyGetD r k (.str []) with
  | .str s => s
  | _ => []

/-- The value stored at a key is a string (so `.strip()` cannot raise). -/
def strField (r : Record) (k : Str) : Prop :=
  pyGetD r k (.str []) = .str (strD r k)

instance (r : Record) (k : Str) : Decidable (strField r k) := by
  unfold strField
  infer_instance

theorem uniqueStringE_ok_of_strFields (r : Record)
    (h1 : strField r (lit "title")) (h2 : strField r (lit "when_date"))
    (h3 : strField r (lit "location")) :
    uniqueStringE r =
      .ok (pyLower (pyStrip (strD r (lit "title"))) ++
        124 :: (pyLower (pyStrip (strD r (lit "when_date"))) ++
          124 :: pyLower (pyStrip (strD r (lit "location"))))) := by
  unfold uniqueStringE
  rw [h1, h2, h3]

/-- `s` and `t` differ only in letter casing and in leading/trailing
whitespace: both are a common case-insensitive core surrounded by
whitespace. -/
def OnlyCaseWsDiff (s t : Str) : Prop :=
  ∃ u1 c1 u2 v1 c2 v2 : Str,
    s = u1 ++ c1 ++ u2 ∧ t = v1 ++ c2 ++ v2 ∧
    (∀ x ∈ u1, isPyWs x = true) ∧ (∀ x ∈ u2, isPyWs x = true) ∧
    (∀ x ∈ v1, isPyWs x = true) ∧ (∀ x ∈ v2, isPyWs x = true) ∧
    pyLower c1 = pyLower c2

theorem lower_strip_eq_of_caseWs {s t : Str} (h : OnlyCaseWsDiff s t) :
    pyLower (pyStrip s) = pyLower (pyStrip t) := by
  obtain ⟨u1, c1, u2, v1, c2, v2, hs, ht, hu1, hu2, hv1, hv2, hc⟩ := h
  rw [hs, ht, pyStrip_ws_pad hu1 hu2, pyStrip_ws_pad hv1 hv2]
  rw [← pyStrip_pyLower, ← pyStrip_pyLower, hc]

/-- Sum of the per-source counts, `sum(sources.values())`. -/
def sumVals (l : List (Str × Nat)) : Nat := (l.map Prod.snd).sum

theorem scrape_foldl_invariant :
    ∀ (sites : List (Str × SiteOutcome)) (st : Stats) (pool : List Record),
      (sites.map Prod.fst).Nodup →
      st.total_events = sumVals st.sources →
      (∀ k ∈ keysOf st.sources, k ∉ sites.map Prod.fst) →
      (sites.foldl scrapeStep (st, pool)).1.total_events =
        sumVals (sites.foldl scrapeStep (st, pool)).1.sources := by
  intro sites
  induction sites with
  | nil =>
    intro st pool _ htot _
    exact htot
  | cons site rest ih =>
    intro st pool hnodup htot hkeys
    obtain ⟨name, outcome⟩ := site
    rw [List.foldl_cons]
    have hnd : (rest.map Prod.fst).Nodup := by
      rw [List.map_cons, List.nodup_cons] at hnodup
      exact hnodup.2
    have hname : name ∉ rest.map Prod.fst := by
      rw [List.map_cons, List.nodup_cons] at hnodup
      exact hnodup.1
    cases outcome with
    | err =>
      simp only [scrapeStep]
      refine ih _ _ hnd ?_ ?_
      · exact htot
      · intro k hk
        replace hk : k ∈ keysOf st.sources := hk
        have := hkeys k hk
        simp at this
        simp [this.2]
    | ok evs =>
      by_cases hevs : evs = []
      · simp only [scrapeStep]
        rw [if_pos hevs]
        refine ih _ _ hnd ?_ ?_
        · exact htot
        · intro k hk
          replace hk : k ∈ keysOf st.sources := hk
          have := hkeys k hk
          simp at this
          simp [this.2]
      · simp only [scrapeStep]
        rw [if_neg hevs]
        have hfresh : name ∉ keysOf st.sources := by
          intro hc
          have := hkeys name hc
          simp at this
        refine ih _ _ hnd ?_ ?_
        · show st.total_events + evs.length = sumVals (pySet st.sources name evs.length)
          rw [pySet_fresh _ hfresh, sumVals, List.map_append, List.sum_append, htot, sumVals]
          simp
        · intro k hk
          replace hk : k ∈ keysOf (pySet st.sources name evs.length) := hk
          rcases keysOf_pySet _ _ _ _ hk with hk2 | hk2
          · have := hkeys k hk2
            simp at this
            simp [this.2]
          · rw [hk2]
            exact hname

theorem scrape_all_total (sites : List (Str × SiteOutcome))
    (h : (sites.map Prod.fst).Nodup) :
    (scrape_all_sites sites).1.total_events =
      sumVals (scrape_all_sites sites).1.sources := by
  apply scrape_foldl_invariant sites initStats [] h rfl
  intro k hk
  simp [initStats, keysOf] at hk

theorem bar_free_append_inj {a1 a2 r1 r2 : Str} (ha1 : 124 ∉ a1) (ha2 : 124 ∉ a2)
    (h : a1 ++ 124 :: r1 = a2 ++ 124 :: r2) : a1 = a2 ∧ r1 = r2 := by
  induction a1 generalizing a2 with
  | nil =>
    cases a2 with
    | nil =>
      simp at h
      exact ⟨rfl, h⟩
    | cons y u =>
      simp at h
      exact absurd (h.1 ▸ ha2) (by simp)
  | cons x t ih =>
    cases a2 with
    | nil =>
      simp at h
      exact absurd (h.1 ▸ ha1) (by simp)
    | cons y u =>
      simp at h
      obtain ⟨hxy, hrest⟩ := h
      have := ih (fun hc => ha1 (by simp [hc])) (fun hc => ha2 (by simp [hc])) hrest
      exact ⟨by rw [hxy, this.1], this.2⟩

/-- C1: for every list of events (whose stored identity fields are strings, so
that hashing does not raise), `deduplicate_events` returns exactly the
subsequence of the input consisting of those events whose fingerprint did not
occur at any earlier position: input order is preserved, the earliest
occurrence of each fingerprint is kept, and every later event with an
already-seen fingerprint is dropped regardless of its other field contents. -/
theorem c1_dedup_first_seen_wins (events : List Record)
    (hok : ∀ r ∈ events, ∃ u, uniqueStringE r = .ok u) :
    deduplicate_events events = .ok (dedupFirstSeen [] events) ∧
      List.Sublist (dedupFirstSeen [] events) events :=
  ⟨dedupGo_eq_firstSeen events [] [] hok (by simp), dedupFirstSeen_sublist events []⟩

/-- The two events of spec §8.5: equal up to casing, the second richer. -/
def c1eA : Record :=
  [(lit "title", .str (lit "X")), (lit "when_date", .str (lit "2025-01-01")),
   (lit "location", .str (lit "Hall")), (lit "description", .str (lit "short"))]

/-- Case-variant duplicate of `c1eA` with more complete data. -/
def c1eB : Record :=
  [(lit "title", .str (lit "x")), (lit "when_date", .str (lit "2025-01-01")),
   (lit "location", .str (lit "hall")), (lit "description", .str (lit "long, detailed"))]

/-- C1 witness: the theorem applied to the concrete pair of spec §8.5. -/
theorem c1_witness :
    (∀ r ∈ [c1eA, c1eB], ∃ u, uniqueStringE r = .ok u) ∧
      deduplicate_events [c1eA, c1eB] = .ok (dedupFirstSeen [] [c1eA, c1eB]) ∧
      List.Sublist (dedupFirstSeen [] [c1eA, c1eB]) [c1eA, c1eB] := by
  have hok : ∀ r ∈ [c1eA, c1eB], ∃ u, uniqueStringE r = .ok u := by
    intro r hr
    simp only [List.mem_cons, List.not_mem_nil, or_false] at hr
    rcases hr with h | h
    · exact ⟨lit "x|2025-01-01|hall", by rw [h]; decide⟩
    · exact ⟨lit "x|2025-01-01|hall", by rw [h]; decide⟩
  exact ⟨hok, (c1_dedup_first_seen_wins [c1eA, c1eB] hok).1,
    (c1_dedup_first_seen_wins [c1eA, c1eB] hok).2⟩

/-- C2: `create_event_hash` is deterministic (records with the same stored
fields give the same digest), and two events whose `title`, `when_date` and
`location` strings differ only in casing or leading/trailing whitespace get
identical fingerprints. -/
theorem c2_fingerprint_deterministic_case_ws :
    (∀ r1 r2 : Record, (∀ k, pyLookup r1 k = pyLookup r2 k) →
      createEventHashE r1 = createEventHashE r2) ∧
    (∀ r1 r2 : Record,
      strField r1 (lit "title") → strField r1 (lit "when_date") →
      strField r1 (lit "location") →
      strField r2 (lit "title") → strField r2 (lit "when_date") →
      strField r2 (lit "location") →
      OnlyCaseWsDiff (strD r1 (lit "title")) (strD r2 (lit "title")) →
      OnlyCaseWsDiff (strD r1 (lit "when_date")) (strD r2 (lit "when_date")) →
      OnlyCaseWsDiff (strD r1 (lit "location")) (strD r2 (lit "location")) →
      createEventHashE r1 = createEventHashE r2) := by
  constructor
  · intro r1 r2 h
    have h1 : uniqueStringE r1 = uniqueStringE r2 := by
      unfold uniqueStringE pyGetD
      rw [h (lit "title"), h (lit "when_date"), h (lit "location")]
    rw [createEventHashE, createEventHashE, h1]
  · intro r1 r2 hf1 hf2 hf3 hg1 hg2 hg3 ht hd hl
    rw [createEventHashE, createEventHashE,
      uniqueStringE_ok_of_strFields r1 hf1 hf2 hf3,
      uniqueStringE_ok_of_strFields r2 hg1 hg2 hg3,
      lower_strip_eq_of_caseWs ht, lower_strip_eq_of_caseWs hd,
      lower_strip_eq_of_caseWs hl]

/-- A record whose identity fields carry extra casing and whitespace. -/
def c2r1 : Record :=
  [(lit "title", .str (lit "  Jazz NIGHT ")), (lit "when_date", .str (lit "2025-07-15")),
   (lit "location", .str (lit "Hall")), (lit "description", .str (lit "a"))]

/-- The same event as `c2r1` with different casing/whitespace and description. -/
def c2r2 : Record :=
  [(lit "title", .str (lit "jazz night")), (lit "when_date", .str (lit " 2025-07-15")),
   (lit "location", .str (lit "HALL ")), (lit "description", .str (lit "b"))]

/-- C2 witness: the theorem applied to the concrete pair. -/
theorem c2_witness :
    OnlyCaseWsDiff (strD c2r1 (lit "title")) (strD c2r2 (lit "title")) ∧
      OnlyCaseWsDiff (strD c2r1 (lit "when_date")) (strD c2r2 (lit "when_date")) ∧
      OnlyCaseWsDiff (strD c2r1 (lit "location")) (strD c2r2 (lit "location")) ∧
      createEventHashE c2r1 = createEventHashE c2r2 := by
  have ht : OnlyCaseWsDiff (strD c2r1 (lit "title")) (strD c2r2 (lit "title")) :=
    ⟨lit "  ", lit "Jazz NIGHT", lit " ", [], lit "jazz night", [],
      by decide, by decide, by decide, by decide, by decide, by decide, by decide⟩
  have hd : OnlyCaseWsDiff (strD c2r1 (lit "when_date")) (strD c2r2 (lit "when_date")) :=
    ⟨[], lit "2025-07-15", [], lit " ", lit "2025-07-15", [],
      by decide, by decide, by decide, by decide, by decide, by decide, by decide⟩
  have hl : OnlyCaseWsDiff (strD c2r1 (lit "location")) (strD c2r2 (lit "location")) :=
    ⟨[], lit "Hall", [], [], lit "HALL", lit " ",
      by decide, by decide, by decide, by decide, by decide, by decide, by decide⟩
  exact ⟨ht, hd, hl,
    c2_fingerprint_deterministic_case_ws.2 c2r1 c2r2 (by decide) (by decide) (by decide)
      (by decide) (by decide) (by decide) ht hd hl⟩

theorem normalize_events_cons (now : Str) (e : Record) (t : List Record) :
    normalize_events now (e :: t) =
      match normalize_event now e with
      | some n => n :: normalize_events now t
      | Option.none => normalize_events now t := rfl

/-- C3: `normalize_event` rejects a record exactly when its title is empty
after trimming (absent and non-string titles counting as empty, per §4.2);
setting `when_date` to anything never changes acceptance; `normalize_events`
is the order-preserving filter of `normalize_event`, and its output length is
the input length minus the number of title-less records. -/
theorem c3_normalize_reject_iff :
    (∀ (now : Str) (r : Record),
      normalize_event now r = Option.none ↔ trimmedTitle r = []) ∧
    (∀ (now : Str) (r : Record) (v : PyVal),
      (normalize_event now (pySet r (lit "when_date") v) = Option.none ↔
        normalize_event now r = Option.none)) ∧
    (∀ (now : Str) (events : List Record),
      normalize_events now events = events.filterMap (normalize_event now)) ∧
    (∀ (now : Str) (events : List Record),
      (normalize_events now events).length =
        events.length - events.countP (fun r => decide (trimmedTitle r = []))) := by
  refine ⟨normalize_event_none_iff, ?_, ?_, ?_⟩
  · intro now r v
    rw [normalize_event_none_iff, normalize_event_none_iff]
    have hsame : trimmedTitle (pySet r (lit "when_date") v) = trimmedTitle r := by
      unfold trimmedTitle pyGetD
      rw [pyLookup_pySet_ne _ _ _ _ (by decide)]
    rw [hsame]
  · intro now events
    induction events with
    | nil => rfl
    | cons e t ih =>
      rw [normalize_events_cons, List.filterMap_cons]
      cases h : normalize_event now e with
      | none =>
        dsimp only
        exact ih
      | some out =>
        dsimp only
        rw [ih]
  · intro now events
    induction events with
    | nil => rfl
    | cons e t ih =>
      rw [normalize_events_cons, List.countP_cons]
      have hcount := List.countP_le_length
        (p := fun r => decide (trimmedTitle r = [])) (l := t)
      by_cases ht : trimmedTitle e = []
      · rw [(normalize_event_none_iff now e).mpr ht]
        simp only [ht, decide_True, List.length_cons, if_true]
        omega
      · cases h : normalize_event now e with
        | none => exact absurd ((normalize_event_none_iff now e).mp h) ht
        | some out =>
          simp only [ht, decide_False, List.length_cons, Bool.false_eq_true, if_false]
          omega

/-- C4: `parse_date` maps the three canonical spellings of 15 July 2025 to
`2025-07-15`; empty-string, `None` and non-string inputs give the empty
string; and any interpretation failure gives the empty string (the embedding
is total, so nothing is raised). -/
theorem c4_parse_date_spec :
    parse_date (.str (lit "July 15, 2025")) = lit "2025-07-15" ∧
    parse_date (.str (lit "2025-07-15")) = lit "2025-07-15" ∧
    parse_date (.str (lit "15 Jul 2025")) = lit "2025-07-15" ∧
    parse_date (.str []) = [] ∧
    parse_date .none = [] ∧
    (∀ v : PyVal, (∀ s, v ≠ .str s) → parse_date v = []) ∧
    (∀ s : Str, dateutilParseDate (pyStrip s) = Option.none → parse_date (.str s) = []) := by
  refine ⟨by decide, by decide, by decide, by decide, rfl, ?_, ?_⟩
  · intro v hv
    cases v with
    | str s => exact absurd rfl (hv s)
    | int n => rfl
    | bool b => rfl
    | none => rfl
  · intro s h
    unfold parse_date
    dsimp only
    by_cases hs : s = []
    · rw [if_pos hs]
    · rw [if_neg hs, h]

/-- C4 witness: the theorem applied to a non-string input and to a string the
date interpreter rejects. -/
theorem c4_witness :
    (∀ s, PyVal.int 7 ≠ .str s) ∧ parse_date (.int 7) = [] ∧
      dateutilParseDate (pyStrip (lit "someday")) = Option.none ∧
      parse_date (.str (lit "someday")) = [] :=
  ⟨fun _ h => PyVal.noConfusion h,
    c4_parse_date_spec.2.2.2.2.2.1 (.int 7) (fun _ h => PyVal.noConfusion h),
    by decide,
    c4_parse_date_spec.2.2.2.2.2.2 (lit "someday") (by decide)⟩

/-- C5: `parse_time` maps `2:30pm`, `2:30 PM` and `14:30` to `02:30 PM`, maps
any casing of the all-day phrases to `All Day`, and converts every bare
24-hour `H:MM` input to 12-hour form with hour 0 mapped to 12 AM, hour 12 to
12 PM, and the `h mod 12` mapping otherwise. -/
theorem c5_parse_time_canonical :
    parse_time (.str (lit "2:30pm")) = lit "02:30 PM" ∧
    parse_time (.str (lit "2:30 PM")) = lit "02:30 PM" ∧
    parse_time (.str (lit "14:30")) = lit "02:30 PM" ∧
    (∀ s : Str, pyLower (pyStrip s) ∈ allDayPhrases →
      parse_time (.str s) = lit "All Day") ∧
    (∀ h m : Nat, h ≤ 23 → m ≤ 59 →
      parse_time (.str (renderHM h m)) =
        pad2 (if h % 12 = 0 then 12 else h % 12) ++
          58 :: (pad2 m ++ 32 :: (if h < 12 then lit "AM" else lit "PM"))) := by
  refine ⟨by decide, by decide, by decide, ?_, ?_⟩
  · intro s hmem
    unfold parse_time
    dsimp only
    have hs : s ≠ [] := by
      intro he
      subst he
      exact absurd hmem (by decide)
    rw [if_neg hs, if_pos hmem]
  · intro h m hh hm
    rw [parse_time_bare24 hh hm]
    rfl

/-- C5 witness: the theorem applied to a mixed-case all-day phrase and to the
bare 24-hour time `0:05`. -/
theorem c5_witness :
    pyLower (pyStrip (lit " ALL DAY ")) ∈ allDayPhrases ∧
      parse_time (.str (lit " ALL DAY ")) = lit "All Day" ∧
      (0 ≤ 23 ∧ 5 ≤ 59) ∧
      parse_time (.str (renderHM 0 5)) =
        pad2 (if 0 % 12 = 0 then 12 else 0 % 12) ++
          58 :: (pad2 5 ++ 32 :: (if 0 < 12 then lit "AM" else lit "PM")) :=
  ⟨by decide, c5_parse_time_canonical.2.2.2.1 (lit " ALL DAY ") (by decide),
    ⟨by decide, by decide⟩,
    c5_parse_time_canonical.2.2.2.2 0 5 (by decide) (by decide)⟩

/-- C6 counterexample: `" gib# "` is a non-empty input on which time
interpretation fails, that is no all-day phrase, and that matches none of the
fallback patterns, yet `parse_time` returns the trimmed text `"gib#"`, not the
original input unchanged. -/
theorem c6_counterexample :
    parse_time (.str (lit " gib# ")) = lit "gib#" ∧ lit "gib#" ≠ lit " gib# " :=
  ⟨by decide, by decide⟩

/-- C6 (amended): for every non-empty input on which time interpretation
fails, that is not an all-day phrase and matches none of the fallback
patterns, `parse_time` returns the whitespace-trimmed input text (equal to
the original exactly when the input carries no leading/trailing
whitespace). -/
theorem c6_returns_trimmed_input (s : Str) (h0 : s ≠ [])
    (h1 : pyLower (pyStrip s) ∉ allDayPhrases)
    (h2 : dateutilParseTime (pyStrip s) = Option.none)
    (h3 : searchP1 (pyStrip s) = Option.none)
    (h4 : searchP2 (pyStrip s) = Option.none)
    (h5 : searchP3 (pyStrip s) = Option.none) :
    parse_time (.str s) = pyStrip s := by
  unfold parse_time
  dsimp only
  rw [if_neg h0, if_neg h1, h2]
  dsimp only
  rw [h3]
  dsimp only
  rw [h4]
  dsimp only
  rw [h5]

/-- C6 witness: the amended theorem applied to `"gibberish##"`. -/
theorem c6_witness :
    (lit "gibberish##" ≠ ([] : Str)) ∧
      pyLower (pyStrip (lit "gibberish##")) ∉ allDayPhrases ∧
      dateutilParseTime (pyStrip (lit "gibberish##")) = Option.none ∧
      searchP1 (pyStrip (lit "gibberish##")) = Option.none ∧
      searchP2 (pyStrip (lit "gibberish##")) = Option.none ∧
      searchP3 (pyStrip (lit "gibberish##")) = Option.none ∧
      parse_time (.str (lit "gibberish##")) = pyStrip (lit "gibberish##") :=
  ⟨by decide, by decide, by decide, by decide, by decide, by decide,
    c6_returns_trimmed_input (lit "gibberish##") (by decide) (by decide) (by decide)
      (by decide) (by decide) (by decide)⟩

/-- The normalized `(title, when_date, location)` identity triple of the
spec's fingerprint description (each field lowercased and trimmed). -/
def normTriple (r : Record) : Str × Str × Str :=
  (pyLower (pyStrip (strD r (lit "title"))),
   pyLower (pyStrip (strD r (lit "when_date"))),
   pyLower (pyStrip (strD r (lit "location"))))

/-- An event whose title contains the join delimiter `|`. -/
def c7e1 : Record :=
  [(lit "title", .str (lit "a|b")), (lit "when_date", .str (lit "c")),
   (lit "location", .str [])]

/-- A different event whose pre-hash string collides with `c7e1`. -/
def c7e2 : Record :=
  [(lit "title", .str (lit "a")), (lit "when_date", .str (lit "b|c")),
   (lit "location", .str [])]

/-- C7 counterexample: two events with different lowercased-trimmed identity
triples whose delimiter-joined pre-hash strings (and hence fingerprints) are
equal, because a field contains the delimiter `|`. -/
theorem c7_counterexample :
    normTriple c7e1 ≠ normTriple c7e2 ∧
      uniqueStringE c7e1 = uniqueStringE c7e2 ∧
      createEventHashE c7e1 = createEventHashE c7e2 := by
  refine ⟨by decide, by decide, ?_⟩
  rw [createEventHashE, createEventHashE,
    (by decide : uniqueStringE c7e1 = uniqueStringE c7e2)]

theorem mem_of_mem_pyStrip {x : Nat} {s : Str} (h : x ∈ pyStrip s) : x ∈ s := by
  unfold pyStrip rtrim ltrim at h
  rw [List.mem_reverse] at h
  have h2 := (List.dropWhile_sublist (l := (s.dropWhile isPyWs).reverse) isPyWs).mem h
  rw [List.mem_reverse] at h2
  exact (List.dropWhile_sublist isPyWs).mem h2

theorem bar_not_mem_lower_strip {s : Str} (h : 124 ∉ s) :
    124 ∉ pyLower (pyStrip s) := by
  intro hc
  rw [pyLower, List.mem_map] at hc
  obtain ⟨c, hcmem, hceq⟩ := hc
  have hc124 : c = 124 := by
    unfold lowerChar at hceq
    split at hceq <;> omega
  exact h (hc124 ▸ mem_of_mem_pyStrip hcmem)

/-- C7 (amended): for events whose `title` and `when_date` fields are free of
the delimiter `|`, differing lowercased-trimmed identity triples give
differing delimiter-joined pre-hash strings.  (Distinctness of the SHA-256
digests themselves additionally needs collision-freedom of the hash, which is
outside the encoding property.) -/
theorem c7_encoding_injective_without_delimiter
    (r1 r2 : Record)
    (hf1 : strField r1 (lit "title")) (hf2 : strField r1 (lit "when_date"))
    (hf3 : strField r1 (lit "location"))
    (hg1 : strField r2 (lit "title")) (hg2 : strField r2 (lit "when_date"))
    (hg3 : strField r2 (lit "location"))
    (hb1 : 124 ∉ strD r1 (lit "title")) (hb2 : 124 ∉ strD r1 (lit "when_date"))
    (hb3 : 124 ∉ strD r2 (lit "title")) (hb4 : 124 ∉ strD r2 (lit "when_date"))
    (hne : normTriple r1 ≠ normTriple r2) :
    uniqueStringE r1 ≠ uniqueStringE r2 := by
  rw [uniqueStringE_ok_of_strFields r1 hf1 hf2 hf3,
    uniqueStringE_ok_of_strFields r2 hg1 hg2 hg3]
  intro h
  rw [Except.ok.injEq] at h
  obtain ⟨hT, hrest⟩ :=
    bar_free_append_inj (bar_not_mem_lower_strip hb1) (bar_not_mem_lower_strip hb3) h
  obtain ⟨hD, hL⟩ :=
    bar_free_append_inj (bar_not_mem_lower_strip hb2) (bar_not_mem_lower_strip hb4) hrest
  exact hne (by rw [normTriple, normTriple, hT, hD, hL])

/-- A delimiter-free event. -/
def c7w1 : Record :=
  [(lit "title", .str (lit "Art Walk")), (lit "when_date", .str (lit "2025-07-15")),
   (lit "location", .str (lit "Plaza"))]

/-- A delimiter-free event with a different title. -/
def c7w2 : Record :=
  [(lit "title", .str (lit "Book Sale")), (lit "when_date", .str (lit "2025-07-15")),
   (lit "location", .str (lit "Plaza"))]

/-- C7 witness: the amended theorem applied to two delimiter-free events. -/
theorem c7_witness :
    (124 ∉ strD c7w1 (lit "title")) ∧ (124 ∉ strD c7w2 (lit "title")) ∧
      normTriple c7w1 ≠ normTriple c7w2 ∧
      uniqueStringE c7w1 ≠ uniqueStringE c7w2 :=
  ⟨by decide, by decide, by decide,
    c7_encoding_injective_without_delimiter c7w1 c7w2 (by decide) (by decide) (by decide)
      (by decide) (by decide) (by decide) (by decide) (by decide) (by decide) (by decide)
      (by decide)⟩

/-- Two sites sharing the name `A`, each scraping one (title-less) record. -/
def c8sites : List (Str × SiteOutcome) :=
  [(lit "A", .ok [[(lit "x", .str (lit "y"))]]),
   (lit "A", .ok [[(lit "x", .str (lit "y"))]])]

/-- C8 counterexample: with two successful sites sharing a name, the run
reports `total_events = 2` while the per-source counts in `sources` sum to 1,
because the second site's entry overwrites the first. -/
theorem c8_counterexample :
    runPipeline (lit "T0") c8sites =
      .ok (⟨2, 0, 0, 2, 0, [(lit "A", 1)]⟩, []) ∧
      (2 : Nat) ≠ sumVals [(lit "A", 1)] :=
  ⟨by decide, by decide⟩

/-- C8 (amended): for every run, at the point statistics are reported,
`unique_events` plus `duplicates_removed` equals the number of events that
survived normalization; and whenever the configured site names are pairwise
distinct, `total_events` equals the sum of the per-source counts in
`sources`. -/
theorem c8_report_invariant (now : Str) (sites : List (Str × SiteOutcome))
    (st : Stats) (uniq : List Record)
    (hrun : runPipeline now sites = .ok (st, uniq)) :
    ((sites.map Prod.fst).Nodup → st.total_events = sumVals st.sources) ∧
      st.unique_events + st.duplicates_removed =
        (normalize_events now (scrape_all_sites sites).2).length := by
  unfold runPipeline at hrun
  dsimp only at hrun
  cases hdd : deduplicate_events (normalize_events now (scrape_all_sites sites).2) with
  | error e =>
    rw [hdd] at hrun
    exact absurd hrun (by simp)
  | ok u =>
    rw [hdd] at hrun
    dsimp only at hrun
    rw [Except.ok.injEq, Prod.mk.injEq] at hrun
    obtain ⟨hst, huq⟩ := hrun
    have hlen := dedupGo_ok_length _ _ _ hdd
    constructor
    · intro hnd
      rw [← hst]
      exact scrape_all_total sites hnd
    · rw [← hst]
      show u.length + ((normalize_events now (scrape_all_sites sites).2).length - u.length) =
        (normalize_events now (scrape_all_sites sites).2).length
      omega

/-- Two sites with distinct names, each scraping one (title-less) record. -/
def c8wsites : List (Str × SiteOutcome) :=
  [(lit "A", .ok [[(lit "x", .str (lit "y"))]]),
   (lit "B", .ok [[(lit "x", .str (lit "y"))]])]

/-- C8 witness: the amended theorem applied to a concrete two-site run. -/
theorem c8_witness :
    (c8wsites.map Prod.fst).Nodup ∧
      runPipeline (lit "T0") c8wsites =
        .ok (⟨2, 0, 0, 2, 0, [(lit "A", 1), (lit "B", 1)]⟩, []) ∧
      (Stats.mk 2 0 0 2 0 [(lit "A", 1), (lit "B", 1)]).total_events =
        sumVals (Stats.mk 2 0 0 2 0 [(lit "A", 1), (lit "B", 1)]).sources ∧
      (Stats.mk 2 0 0 2 0 [(lit "A", 1), (lit "B", 1)]).unique_events +
          (Stats.mk 2 0 0 2 0 [(lit "A", 1), (lit "B", 1)]).duplicates_removed =
        (normalize_events (lit "T0") (scrape_all_sites c8wsites).2).length :=
  ⟨by decide, by decide,
    (c8_report_invariant (lit "T0") c8wsites _ [] (by decide)).1 (by decide),
    (c8_report_invariant (lit "T0") c8wsites _ [] (by decide)).2⟩

/-- A record carrying an unrecognized key `community_partner`. -/
def c9rec : Record :=
  [(lit "title", .str (lit "T")), (lit "community_partner", .str (lit "x"))]

/-- C9 counterexample: the unrecognized key `community_partner` survives into
the Event produced by `normalize_event` instead of being dropped. -/
theorem c9_counterexample :
    lit "community_partner" ∉ recognizedKeys ∧
      (normalize_event (lit "T0") c9rec).map
          (fun r => pyLookup r (lit "community_partner")) =
        some (some (.str (lit "x"))) :=
  ⟨by decide, by decide⟩

/-- C9 (amended): unrecognized keys of the input record are carried through
unchanged into the Event produced by `normalize_event` (the output at any
unrecognized key equals the input at that key). -/
theorem c9_unrecognized_carried_through (now : Str) (r out : Record) (k : Str)
    (hk : k ∉ recognizedKeys) (h : normalize_event now r = some out) :
    pyLookup out k = pyLookup r k := by
  rw [normalize_event_some_eq now r out h]
  exact lookup_normalizeRec_unrecognized now r k hk

/-- C9 witness: the amended theorem applied to the concrete record. -/
theorem c9_witness :
    lit "community_partner" ∉ recognizedKeys ∧
      normalize_event (lit "T0") c9rec = some (normalizeRec (lit "T0") c9rec) ∧
      pyLookup (normalizeRec (lit "T0") c9rec) (lit "community_partner") =
        pyLookup c9rec (lit "community_partner") :=
  ⟨by decide, by decide,
    c9_unrecognized_carried_through (lit "T0") c9rec _ (lit "community_partner")
      (by decide) (by decide)⟩

/-- C10: `normalize_event` is total on arbitrary objects — every input yields
`None` or a normalized record — and any exception raised by the `try` body
(e.g. the `AttributeError` from a non-dict input) is converted by the
`except` handler into a rejection (`None`) rather than propagating. -/
theorem c10_normalize_total :
    (∀ (now : Str) (obj : PyObj) (e : PyExc),
      normalizeEventBody now obj = .error e → normalize_event_obj now obj = Option.none) ∧
    (∀ (now : Str) (obj : PyObj),
      normalize_event_obj now obj = Option.none ∨
        ∃ r, normalize_event_obj now obj = some r) := by
  constructor
  · intro now obj e h
    unfold normalize_event_obj
    rw [h]
  · intro now obj
    cases h : normalize_event_obj now obj with
    | none => exact Or.inl rfl
    | some r => exact Or.inr ⟨r, rfl⟩

/-- C10 witness: the theorem applied to the non-dict object `3`, whose
`AttributeError` is swallowed into a rejection. -/
theorem c10_witness :
    normalizeEventBody (lit "T0") (.atom (.int 3)) = .error .attributeError ∧
      normalize_event_obj (lit "T0") (.atom (.int 3)) = Option.none :=
  ⟨rfl, c10_normalize_total.1 (lit "T0") (.atom (.int 3)) .attributeError rfl⟩
